import Mathlib

/-!
Shallow embedding of the file-storage orchestration layer
(`api/files/routes.go`) of the large-data-sharing application.

Pure helpers (path derivation, tag normalization, page-size parsing,
sort-key generation) are translated directly from the Go source.
The handlers (`PostFiles`, `UpdateFile`, `GetFileList`, `DeleteFile`)
are embedded as explicit state-passing functions over a two-store state
(blob store and metadata store), returning a status, a successor state
and a trace of store calls.  The narrow store adapters
(`bucket.Write`/`TransWrite`/`Delete`, `firestore.Create`/`Get`/`Merge`/
`Delete`/`ListByTags`) are not part of the given sources; they are
modelled from the spec where marked.

Nondeterminism of the real system is made explicit:
* clock reads are a `Nat` millisecond parameter,
* generated identifiers are `String` parameters,
* IO failure of blob operations is injected through `Bool` flags and
  through per-file flags on `UploadFile`.
Timestamps are carried as millisecond counts; the ISO-8601 rendering
applied when serializing responses is a presentation detail no claim
depends on.
-/

namespace LDS

/-- config.Config: the two base-path configuration values used by routes.go. -/
structure Config where
  bucketBasePath : String
  resourceBasePath : String
deriving DecidableEq

/-- const pageSize = 50. -/
def pageSize : Int := 50

/-- var imageTypes = []string ... (routes.go line 71). -/
def imageTypes : List String := [".jpg", ".jpeg", ".png", ".gif"]

/-- func toThumbnailPath (routes.go line 73). -/
def toThumbnailPath (path : String) : String :=
  path ++ "_small"

/-- func toBucketPath (routes.go line 77). -/
def toBucketPath (cfg : Config) (id : String) : String :=
  cfg.bucketBasePath ++ id

/-- func toResourceURL (routes.go line 81). -/
def toResourceURL (cfg : Config) (path : String) : String :=
  cfg.resourceBasePath ++ path

/-- func getOrderNo (routes.go line 85): decimal rendering of the
millisecond clock reading (strconv.FormatInt base 10), a dash, the id.
The clock value is a `Nat` parameter. -/
def getOrderNo (nowMs : Nat) (id : String) : String :=
  Nat.repr nowMs ++ "-" ++ id

/-- The decimal digit characters of a number, most significant first:
a structural handle on the rendering `Nat.repr` produces (the bridge is
proved below). -/
def decDigits (n : Nat) : List Char :=
  if _h : n < 10 then [Nat.digitChar n]
  else decDigits (n / 10) ++ [Nat.digitChar (n % 10)]
decreasing_by exact Nat.div_lt_self (by omega) (by omega)

/-- Core's structural lexicographic order on character lists is
decidable (the ambient list order instance is the equivalent
`List.Lex`-based one, so this instance is registered by hand). -/
instance listCharLtDec : DecidableRel (@List.lt Char _) := fun a b =>
  List.hasDecidableLt a b

/-- unicode.IsSpace restricted to the Latin-1 range: the characters
Go's strings.Fields splits on (space, tab, newline, vertical tab,
form feed, carriage return, NEL, NBSP). -/
def goIsSpace (c : Char) : Bool :=
  c.toNat = 32 || c.toNat = 9 || c.toNat = 10 || c.toNat = 11 ||
  c.toNat = 12 || c.toNat = 13 || c.toNat = 133 || c.toNat = 160

/-- Worker for strings.Fields: walks the characters, accumulating the
current (reversed) token, emitting it when whitespace is hit. -/
def fieldsAux : List Char → List Char → List (List Char)
  | [], cur => if cur.isEmpty then [] else [cur.reverse]
  | c :: cs, cur =>
    if goIsSpace c then
      if cur.isEmpty then fieldsAux cs [] else cur.reverse :: fieldsAux cs []
    else fieldsAux cs (c :: cur)

/-- strings.Fields: the whitespace-separated tokens of a string, in
order, with no empty tokens. -/
def goFields (s : String) : List String :=
  (fieldsAux s.data []).map List.asString

/-- strings.ToLower: lower-cases every character (the source strings are
ASCII; `Char.toLower` is the basic-latin case mapping). -/
def goToLower (s : String) : String :=
  (s.data.map Char.toLower).asString

/-- func parseTags (routes.go line 89). -/
def parseTags (tags : String) : List String :=
  if tags = "" then [] else goFields (goToLower tags)

/-- strconv.Atoi digit-accumulation: consumes decimal digits, failing on
any non-digit. -/
def decValAux : List Char → Nat → Option Nat
  | [], acc => some acc
  | c :: cs, acc =>
    if c.isDigit then decValAux cs (acc * 10 + (c.toNat - 48)) else none

/-- strconv.Atoi (= ParseInt base 10, bit size of int = 64): an optional
sign, one or more decimal digits, and a 64-bit range check. -/
def goAtoi (s : String) : Option Int :=
  let signAndDigits : Bool × List Char :=
    match s.data with
    | '+' :: rest => (false, rest)
    | '-' :: rest => (true, rest)
    | l => (false, l)
  match signAndDigits with
  | (neg, ds) =>
    if ds.isEmpty then none
    else
      match decValAux ds 0 with
      | none => none
      | some n =>
        let v : Int := if neg then -(n : Int) else (n : Int)
        if -9223372036854775808 ≤ v ∧ v ≤ 9223372036854775807 then some v
        else none

/-- func parsePageSize (routes.go line 96): empty parameter means the
default page size, otherwise strconv.Atoi. -/
def parsePageSize (sizeParam : String) : Option Int :=
  if sizeParam = "" then some pageSize else goAtoi sizeParam

/-- filepath.Ext worker: scans the characters from the end (the input is
the reversed character list); stops at a path separator, returns the
suffix from the last dot. -/
def goExtAux : List Char → List Char → String
  | [], _ => ""
  | c :: rest, acc =>
    if c = '/' then ""
    else if c = '.' then ('.' :: acc).asString
    else goExtAux rest (c :: acc)

/-- filepath.Ext: the file name extension, from the final dot in the
final slash-separated element; empty if there is no dot. -/
def goExt (s : String) : String :=
  goExtAux s.data.reverse []

/-- filepath.Base: the last element of the path, after stripping
trailing slashes; "." for the empty path, "/" if the path is all
slashes. -/
def goBase (s : String) : String :=
  if s = "" then "."
  else
    match s.data.reverse.dropWhile (· = '/') with
    | [] => "/"
    | t => ((t.takeWhile (· ≠ '/')).reverse).asString

/-- firestore.FileMeta: the persisted metadata record (document
snapshot).  Timestamps are millisecond counts. -/
structure FirestoreFileMeta where
  id : String
  path : String
  name : String
  tags : List String
  orderNo : String
  fileSize : Int
  createTime : Nat
  updateTime : Nat
deriving DecidableEq

/-- The field-change set passed to firestore.Merge.  `tags` and
`orderNo` are always named (routes.go line 324); `path`, `name` and
`size` are named only when a replacement file is supplied. -/
structure MergeFields where
  tags : List String
  orderNo : String
  path : Option String := none
  name : Option String := none
  size : Option Int := none
deriving DecidableEq

/-- The blob store: the set of object paths currently present. -/
abbrev BlobStore := List String

/-- The metadata store: an association of ids to records. -/
abbrev MetaStore := List (String × FirestoreFileMeta)

/-- The combined external-store state. -/
structure StoreState where
  blobs : BlobStore
  metas : MetaStore
deriving DecidableEq

/-- One call issued to an external store, in issue order. -/
inductive StoreEvent where
  | blobWrite (path : String)
  | blobTransWrite (path : String)
  | blobDelete (paths : List String)
  | metaGet (id : String)
  | metaCreate (id : String)
  | metaMerge (id : String) (flds : MergeFields)
  | metaDelete (id : String)
  | metaList (tags : List String) (orderNo : String) (limit : Int)
deriving DecidableEq

/-- HTTP outcome of a handler.  `serverCrash` models a Go panic
(log.Panicln or a runtime panic), surfaced as an internal failure. -/
inductive HStatus where
  | created
  | ok
  | noContent
  | badRequest
  | notFound
  | serverCrash
deriving DecidableEq

/-- An uploaded multipart file part.  The `writeOk`/`decodeOk`/
`encodeOk` flags inject the environment's nondeterminism: whether the
raw upload write succeeds, whether imaging.Decode succeeds on the
content, and whether imaging.Encode (writing PNG output to the bucket
writer) succeeds. -/
structure UploadFile where
  filename : String
  size : Int
  writeOk : Bool
  decodeOk : Bool
  encodeOk : Bool
deriving DecidableEq

/-- func thumbnailTranscoder (routes.go line 132), result as
(size, errored): decode failure returns `(0, true)`; an encode
failure returns `(0, false)` — the source tests `err != nil` and then
returns a nil error; success returns the unknown-size sentinel
`(-1, false)`. -/
def thumbnailTranscoder (f : UploadFile) : Int × Bool :=
  if !f.decodeOk then (0, true)
  else if !f.encodeOk then (0, false)
  else (-1, false)

/-- Modelled from the spec: bucket.Write (§4.4 `write(path, bytes) ->
size`), whose source is not among the given files.  Uploads the bytes
at the path and returns the byte count, or fails (IO failure is
injected by `writeOk`). -/
def bucketWrite (blobs : BlobStore) (path : String) (f : UploadFile) :
    Option (Int × BlobStore) :=
  if f.writeOk then some (f.size, path :: blobs) else none

/-- Modelled from the spec: bucket.TransWrite (§4.4 `transcodeAndWrite`),
whose source is not among the given files.  Runs the transcoder and
writes its output; propagates the transcoder's error. -/
def bucketTransWrite (blobs : BlobStore) (path : String) (f : UploadFile)
    (transcoder : UploadFile → Int × Bool) : Option (Int × BlobStore) :=
  match transcoder f with
  | (sz, errored) => if errored then none else some (sz, path :: blobs)

/-- func writeFileToBucket (routes.go line 104): dispatches on whether a
transcoder is supplied. -/
def writeFileToBucket (blobs : BlobStore) (path : String) (f : UploadFile)
    (transcoder : Option (UploadFile → Int × Bool)) :
    Option (Int × BlobStore) × List StoreEvent :=
  match transcoder with
  | some tc => (bucketTransWrite blobs path f tc, [StoreEvent.blobTransWrite path])
  | none => (bucketWrite blobs path f, [StoreEvent.blobWrite path])

/-- func writeThumbnailToBucket (routes.go line 126). -/
def writeThumbnailToBucket (blobs : BlobStore) (path : String)
    (f : UploadFile) : Option (Int × BlobStore) × List StoreEvent :=
  writeFileToBucket blobs (toThumbnailPath path) f (some thumbnailTranscoder)

/-- func uploadToBucket (routes.go line 150): primary write, then, when
the lower-cased extension is a recognized image type, the thumbnail
write. -/
def uploadToBucket (blobs : BlobStore) (path : String) (f : UploadFile) :
    Option (Int × BlobStore) × List StoreEvent :=
  match writeFileToBucket blobs path f none with
  | (none, evs) => (none, evs)
  | (some (size, blobs1), evs) =>
    let ext := goToLower (goExt f.filename)
    if imageTypes.contains ext then
      match writeThumbnailToBucket blobs1 path f with
      | (none, evs2) => (none, evs ++ evs2)
      | (some (_, blobs2), evs2) => (some (size, blobs2), evs ++ evs2)
    else (some (size, blobs1), evs)

/-- Modelled from the spec: bucket.Delete (§4.4 `delete(paths...)`),
whose source is not among the given files.  Removes the given paths,
or fails as a whole (failure injected by `deleteFails`; on failure the
paths may remain). -/
def bucketDelete (blobs : BlobStore) (paths : List String)
    (deleteFails : Bool) : Option BlobStore :=
  if deleteFails then none
  else some (blobs.filter (fun q => !(paths.contains q)))

/-- func deleteBucketFile (routes.go line 186): the guarded no-op on an
empty path, otherwise one bucket.Delete call on the primary path and
its thumbnail path, in that order. -/
def deleteBucketFile (blobs : BlobStore) (path : String)
    (deleteFails : Bool) : Option BlobStore × List StoreEvent :=
  if path = "" then (some blobs, [])
  else
    match bucketDelete blobs [path, toThumbnailPath path] deleteFails with
    | none => (none, [StoreEvent.blobDelete [path, toThumbnailPath path]])
    | some blobs2 => (some blobs2, [StoreEvent.blobDelete [path, toThumbnailPath path]])

/-- Modelled from the spec: firestore.Delete (§4.5 `delete(id)`), whose
source is not among the given files.  Removes the record keyed by the
id. -/
def removeMeta (ms : MetaStore) (id : String) : MetaStore :=
  ms.filter (fun p => p.1 ≠ id)

/-- Modelled from the spec: firestore.Merge (§4.5 `merge(id,
fieldChanges)`), whose source is not among the given files.  Partial
update of only the named fields; `updateTime` is recomputed by the
store. -/
def mergeApply (r : FirestoreFileMeta) (flds : MergeFields) (nowMs : Nat) :
    FirestoreFileMeta :=
  { r with
    tags := flds.tags
    orderNo := flds.orderNo
    path := flds.path.getD r.path
    name := flds.name.getD r.name
    fileSize := flds.size.getD r.fileSize
    updateTime := nowMs }

/-- func generateFileMeta (routes.go line 201): projection of a
persisted record to the response view; the thumbnail URL is set only
for recognized image extensions of the record's name. -/
structure FileMeta where
  id : String
  name : String
  tags : List String
  url : String
  thumbURL : String
  orderNo : String
  fileSize : Int
  createTime : Nat
  updateTime : Nat
deriving DecidableEq

def generateFileMeta (cfg : Config) (result : FirestoreFileMeta) : FileMeta :=
  { id := result.id
    name := result.name
    tags := result.tags
    orderNo := result.orderNo
    fileSize := result.fileSize
    createTime := result.createTime
    updateTime := result.updateTime
    url := toResourceURL cfg result.path
    thumbURL :=
      if imageTypes.contains (goToLower (goExt result.name)) then
        toResourceURL cfg (toThumbnailPath result.path)
      else "" }

/-- The outcome of one handler invocation: HTTP status, successor store
state, the trace of store calls in issue order, and the projected
response views (for the handlers that return them). -/
structure HandlerOut where
  status : HStatus
  state : StoreState
  events : List StoreEvent
  views : List FileMeta := []
deriving DecidableEq

/-- The per-file loop body of func PostFiles (routes.go lines 259-288):
upload to the bucket, abort the batch with 400 on error, otherwise
create the metadata record (firestore.Create, modelled from the spec:
§4.5 `create` assigns both timestamps to now) and continue. -/
def postFilesLoop (cfg : Config) (st : StoreState)
    (pairs : List (UploadFile × String)) (tags : List String)
    (nowMs : Nat) : HStatus × StoreState × List StoreEvent × List FileMeta :=
  match pairs with
  | [] => (HStatus.created, st, [], [])
  | (f, id) :: rest =>
    let path := toBucketPath cfg id
    match uploadToBucket st.blobs path f with
    | (none, evs) => (HStatus.badRequest, st, evs, [])
    | (some (size, blobs1), evs) =>
      let rec0 : FirestoreFileMeta :=
        { id := id
          path := path
          name := goBase f.filename
          tags := tags
          orderNo := getOrderNo nowMs id
          fileSize := size
          createTime := nowMs
          updateTime := nowMs }
      let st1 : StoreState := { blobs := blobs1, metas := (id, rec0) :: st.metas }
      match postFilesLoop cfg st1 rest tags nowMs with
      | (stat, st2, evs2, views2) =>
        (stat, st2, evs ++ StoreEvent.metaCreate id :: evs2,
         generateFileMeta cfg rec0 :: views2)

/-- func PostFiles (routes.go line 234), after a successful form bind:
iterates the uploaded files in order with the normalized tags.  The id
for each file (uuid.New) is supplied in `ids`; the clock reading in
`nowMs`. -/
def postFilesH (cfg : Config) (st : StoreState) (files : List UploadFile)
    (tagsStr : String) (ids : List String) (nowMs : Nat) : HandlerOut :=
  match postFilesLoop cfg st (files.zip ids) (parseTags tagsStr) nowMs with
  | (stat, st2, evs, views) => ⟨stat, st2, evs, views⟩

/-- func updateBucketFile (routes.go line 167): delete the old path and
its thumbnail, then upload the new file under a fresh id. -/
def updateBucketFile (cfg : Config) (blobs : BlobStore) (path : String)
    (f : UploadFile) (newId : String) (oldDeleteFails : Bool) :
    Option (String × String × Int × BlobStore) × List StoreEvent :=
  match deleteBucketFile blobs path oldDeleteFails with
  | (none, evs) => (none, evs)
  | (some blobs1, evs) =>
    let newPath := toBucketPath cfg newId
    match uploadToBucket blobs1 newPath f with
    | (none, evs2) => (none, evs ++ evs2)
    | (some (size, blobs2), evs2) => (some (newId, newPath, size, blobs2), evs ++ evs2)

/-- The multipart form of an update request: the values of the `tags`
field and the parts of the `file` field, as the handler reads them. -/
structure UpdateForm where
  tagsVals : List String
  fileVals : List UploadFile
deriving DecidableEq

/-- func UpdateFile (routes.go line 294): fetch the record (404 when
missing), read the form — indexing `form.Value["tags"][0]` panics when
the tags field is absent —, optionally replace the bucket file, then
merge tags/orderNo (and path/name/size when a file was supplied). -/
def updateFileH (cfg : Config) (st : StoreState) (id : String)
    (form : UpdateForm) (nowMs : Nat) (newId : String)
    (oldDeleteFails : Bool) : HandlerOut :=
  match List.lookup id st.metas with
  | none => ⟨HStatus.notFound, st, [StoreEvent.metaGet id], []⟩
  | some meta =>
    match form.tagsVals with
    | [] => ⟨HStatus.serverCrash, st, [StoreEvent.metaGet id], []⟩
    | tagsStr :: _ =>
      let tags := parseTags tagsStr
      let flds0 : MergeFields := { tags := tags, orderNo := getOrderNo nowMs id }
      match form.fileVals with
      | [] =>
        let rec2 := mergeApply meta flds0 nowMs
        ⟨HStatus.ok,
         { blobs := st.blobs, metas := (id, rec2) :: removeMeta st.metas id },
         [StoreEvent.metaGet id, StoreEvent.metaMerge id flds0],
         [generateFileMeta cfg rec2]⟩
      | f :: _ =>
        match updateBucketFile cfg st.blobs meta.path f newId oldDeleteFails with
        | (none, evs) => ⟨HStatus.serverCrash, st, StoreEvent.metaGet id :: evs, []⟩
        | (some (_, newPath, size, blobs2), evs) =>
          let flds : MergeFields :=
            { tags := tags
              orderNo := getOrderNo nowMs id
              path := some newPath
              name := some (goBase f.filename)
              size := some size }
          let rec2 := mergeApply meta flds nowMs
          ⟨HStatus.ok,
           { blobs := blobs2, metas := (id, rec2) :: removeMeta st.metas id },
           StoreEvent.metaGet id :: evs ++ [StoreEvent.metaMerge id flds],
           [generateFileMeta cfg rec2]⟩

/-- Descending insertion by orderNo, for the listing order. -/
def insertDesc (r : FirestoreFileMeta) :
    List FirestoreFileMeta → List FirestoreFileMeta
  | [] => [r]
  | x :: xs =>
    if decide (x.orderNo < r.orderNo) then r :: x :: xs else x :: insertDesc r xs

def sortByOrderNoDesc : List FirestoreFileMeta → List FirestoreFileMeta
  | [] => []
  | x :: xs => insertDesc x (sortByOrderNoDesc xs)

/-- Modelled from the spec: firestore.ListByTags (§4.5 `listByTags`),
whose source is not among the given files.  Records containing all
requested tags, strictly below the cursor when one is given, ordered by
orderNo descending, capped at the limit. -/
def listByTags (ms : MetaStore) (tags : List String) (cursor : String)
    (limit : Int) : List FirestoreFileMeta :=
  let matching := (ms.map Prod.snd).filter
    (fun r => tags.all (fun t => r.tags.contains t))
  let afterCursor :=
    if cursor = "" then matching
    else matching.filter (fun r => decide (r.orderNo < cursor))
  (sortByOrderNoDesc afterCursor).take limit.toNat

/-- func GetFileList (routes.go line 351): normalize the tags query,
parse the page size (400 on a parse failure, before any store call),
list, and project. -/
def getFileListH (cfg : Config) (st : StoreState)
    (tagsQ orderNoQ sizeQ : String) : HandlerOut :=
  let tags := parseTags tagsQ
  match parsePageSize sizeQ with
  | none => ⟨HStatus.badRequest, st, [], []⟩
  | some size =>
    let docs := listByTags st.metas tags orderNoQ size
    ⟨HStatus.ok, st, [StoreEvent.metaList tags orderNoQ size],
     docs.map (generateFileMeta cfg)⟩

/-- func DeleteFile (routes.go line 380): fetch the record (404 when
missing), delete the blob paths (a failure panics, leaving the
metadata record), then delete the metadata record. -/
def deleteFileH (st : StoreState) (id : String) (blobDeleteFails : Bool) :
    HandlerOut :=
  match List.lookup id st.metas with
  | none => ⟨HStatus.notFound, st, [StoreEvent.metaGet id], []⟩
  | some doc =>
    match deleteBucketFile st.blobs doc.path blobDeleteFails with
    | (none, evs) => ⟨HStatus.serverCrash, st, StoreEvent.metaGet id :: evs, []⟩
    | (some blobs2, evs) =>
      ⟨HStatus.noContent,
       { blobs := blobs2, metas := removeMeta st.metas id },
       StoreEvent.metaGet id :: evs ++ [StoreEvent.metaDelete id], []⟩


/-! ### Helper lemmas -/

theorem lookup_removeMeta (ms : MetaStore) (id : String) :
    List.lookup id (removeMeta ms id) = none := by
  induction ms with
  | nil => rfl
  | cons p rest ih =>
    obtain ⟨k, v⟩ := p
    by_cases h : k = id
    · have hr : removeMeta ((k, v) :: rest) id = removeMeta rest id := by
        simp [removeMeta, List.filter, h]
      rw [hr]; exact ih
    · have hr : removeMeta ((k, v) :: rest) id = (k, v) :: removeMeta rest id := by
        simp [removeMeta, List.filter, h]
      have hbeq : (id == k) = false := beq_eq_false_iff_ne.mpr (fun he => h he.symm)
      rw [hr, List.lookup, hbeq]
      exact ih

theorem not_mem_filter_contains (l ps : List String) (x : String)
    (hx : x ∈ ps) : x ∉ l.filter (fun q => !(ps.contains q)) := by
  intro hmem
  have h := (List.mem_filter.mp hmem).2
  simp at h
  exact h hx

theorem append_small_ne_empty (a b : String) : a ++ (b ++ "_small") ≠ "" := by
  intro h
  have hlen := congrArg String.length h
  have h6 : ("_small" : String).length = 6 := rfl
  simp [String.length_append, h6] at hlen

/-! ### C2, C3, C7: delete and metadata-only update -/

/-- C2: in every Delete of an existing id, the blob deletion of the
primary path and its thumbnail path is issued strictly before the
metadata deletion; the metadata record is never deleted when the blob
deletion has failed; and after a successful Delete both blob paths are
absent and a subsequent get of the id yields not-found.  (The
nonempty-path hypothesis holds for every record the handlers create,
since paths are a base prefix followed by a nonempty identifier.) -/
theorem claim2_delete_order (st : StoreState) (id : String)
    (r : FirestoreFileMeta) (blobDeleteFails : Bool)
    (hget : List.lookup id st.metas = some r) (hpath : r.path ≠ "") :
    (deleteFileH st id blobDeleteFails).events =
      StoreEvent.metaGet id ::
      StoreEvent.blobDelete [r.path, toThumbnailPath r.path] ::
      (if blobDeleteFails then [] else [StoreEvent.metaDelete id]) ∧
    (blobDeleteFails = true →
      (deleteFileH st id blobDeleteFails).state = st) ∧
    (blobDeleteFails = false →
      r.path ∉ (deleteFileH st id blobDeleteFails).state.blobs ∧
      toThumbnailPath r.path ∉ (deleteFileH st id blobDeleteFails).state.blobs ∧
      List.lookup id (deleteFileH st id blobDeleteFails).state.metas = none) := by
  cases blobDeleteFails
  · refine ⟨?_, by simp, fun _ => ⟨?_, ?_, ?_⟩⟩
    · simp [deleteFileH, hget, deleteBucketFile, bucketDelete, hpath]
    · simp only [deleteFileH, hget, deleteBucketFile, bucketDelete, hpath,
        if_neg, if_false]
      exact not_mem_filter_contains _ _ _ (by simp)
    · simp only [deleteFileH, hget, deleteBucketFile, bucketDelete, hpath,
        if_neg, if_false]
      exact not_mem_filter_contains _ _ _ (by simp)
    · simp only [deleteFileH, hget, deleteBucketFile, bucketDelete, hpath,
        if_neg, if_false]
      exact lookup_removeMeta _ _
  · refine ⟨?_, fun _ => ?_, by simp⟩
    · simp [deleteFileH, hget, deleteBucketFile, bucketDelete, hpath]
    · simp [deleteFileH, hget, deleteBucketFile, bucketDelete, hpath]

/-- C2 witness: the theorem applied to a concrete one-record state. -/
theorem claim2_delete_order_witness :
    (deleteFileH ⟨["p1", "p1_small"], [("x", ⟨"x", "p1", "a.png", [], "1-x", 3, 1, 1⟩)]⟩
        "x" false).events =
      StoreEvent.metaGet "x" ::
      StoreEvent.blobDelete ["p1", toThumbnailPath "p1"] ::
      (if false then [] else [StoreEvent.metaDelete "x"]) ∧
    (false = true →
      (deleteFileH ⟨["p1", "p1_small"], [("x", ⟨"x", "p1", "a.png", [], "1-x", 3, 1, 1⟩)]⟩
        "x" false).state =
        ⟨["p1", "p1_small"], [("x", ⟨"x", "p1", "a.png", [], "1-x", 3, 1, 1⟩)]⟩) ∧
    (false = false →
      "p1" ∉ (deleteFileH ⟨["p1", "p1_small"], [("x", ⟨"x", "p1", "a.png", [], "1-x", 3, 1, 1⟩)]⟩
        "x" false).state.blobs ∧
      toThumbnailPath "p1" ∉
        (deleteFileH ⟨["p1", "p1_small"], [("x", ⟨"x", "p1", "a.png", [], "1-x", 3, 1, 1⟩)]⟩
          "x" false).state.blobs ∧
      List.lookup "x"
        (deleteFileH ⟨["p1", "p1_small"], [("x", ⟨"x", "p1", "a.png", [], "1-x", 3, 1, 1⟩)]⟩
          "x" false).state.metas = none) :=
  claim2_delete_order
    ⟨["p1", "p1_small"], [("x", ⟨"x", "p1", "a.png", [], "1-x", 3, 1, 1⟩)]⟩
    "x" ⟨"x", "p1", "a.png", [], "1-x", 3, 1, 1⟩ false (by decide) (by decide)

/-- C3: for every Update of an existing id with no replacement file,
the merge names exactly the fields tags and orderNo (the field-change
set carries no path, name or size), the stored tags become exactly the
normalization of the supplied tag string, orderNo becomes a fresh
synthetic key, and id, path, name, fileSize and createTime are
unchanged (only updateTime is advanced by the store). -/
theorem claim3_metadata_only_update (cfg : Config) (st : StoreState)
    (id : String) (r : FirestoreFileMeta) (ts : String)
    (restTags : List String) (nowMs : Nat) (newId : String) (odf : Bool)
    (hget : List.lookup id st.metas = some r) :
    (updateFileH cfg st id ⟨ts :: restTags, []⟩ nowMs newId odf).status = HStatus.ok ∧
    (updateFileH cfg st id ⟨ts :: restTags, []⟩ nowMs newId odf).events =
      [StoreEvent.metaGet id,
       StoreEvent.metaMerge id ⟨parseTags ts, getOrderNo nowMs id, none, none, none⟩] ∧
    List.lookup id (updateFileH cfg st id ⟨ts :: restTags, []⟩ nowMs newId odf).state.metas =
      some { r with
              tags := parseTags ts
              orderNo := getOrderNo nowMs id
              updateTime := nowMs } ∧
    (updateFileH cfg st id ⟨ts :: restTags, []⟩ nowMs newId odf).state.blobs = st.blobs := by
  refine ⟨?_, ?_, ?_, ?_⟩ <;>
    simp [updateFileH, hget, mergeApply, List.lookup]

/-- C3 witness: the theorem applied to a concrete record previously
tagged with two tags, updated to the single tag string "a". -/
theorem claim3_metadata_only_update_witness :
    (updateFileH ⟨"b/", "r/"⟩ ⟨["b/x"], [("x", ⟨"x", "b/x", "a.png", ["a", "b"], "1-x", 3, 1, 1⟩)]⟩
        "x" ⟨["a"], []⟩ 9 "n2" false).status = HStatus.ok ∧
    (updateFileH ⟨"b/", "r/"⟩ ⟨["b/x"], [("x", ⟨"x", "b/x", "a.png", ["a", "b"], "1-x", 3, 1, 1⟩)]⟩
        "x" ⟨["a"], []⟩ 9 "n2" false).events =
      [StoreEvent.metaGet "x",
       StoreEvent.metaMerge "x" ⟨parseTags "a", getOrderNo 9 "x", none, none, none⟩] ∧
    List.lookup "x"
      (updateFileH ⟨"b/", "r/"⟩ ⟨["b/x"], [("x", ⟨"x", "b/x", "a.png", ["a", "b"], "1-x", 3, 1, 1⟩)]⟩
        "x" ⟨["a"], []⟩ 9 "n2" false).state.metas =
      some { (⟨"x", "b/x", "a.png", ["a", "b"], "1-x", 3, 1, 1⟩ : FirestoreFileMeta) with
              tags := parseTags "a"
              orderNo := getOrderNo 9 "x"
              updateTime := 9 } ∧
    (updateFileH ⟨"b/", "r/"⟩ ⟨["b/x"], [("x", ⟨"x", "b/x", "a.png", ["a", "b"], "1-x", 3, 1, 1⟩)]⟩
        "x" ⟨["a"], []⟩ 9 "n2" false).state.blobs = ["b/x"] :=
  claim3_metadata_only_update ⟨"b/", "r/"⟩
    ⟨["b/x"], [("x", ⟨"x", "b/x", "a.png", ["a", "b"], "1-x", 3, 1, 1⟩)]⟩
    "x" ⟨"x", "b/x", "a.png", ["a", "b"], "1-x", 3, 1, 1⟩ "a" [] 9 "n2" false (by decide)

/-- C7: a Delete whose id has no metadata record returns not-found,
performs no blob-store call (the trace holds only the metadata get) and
leaves both stores unchanged. -/
theorem claim7_delete_missing (st : StoreState) (id : String)
    (blobDeleteFails : Bool) (h : List.lookup id st.metas = none) :
    deleteFileH st id blobDeleteFails =
      ⟨HStatus.notFound, st, [StoreEvent.metaGet id], []⟩ := by
  simp [deleteFileH, h]

/-- C7 witness: deleting the nonexistent id "ghost". -/
theorem claim7_delete_missing_witness :
    deleteFileH ⟨["b/x"], [("x", ⟨"x", "b/x", "a.png", [], "1-x", 3, 1, 1⟩)]⟩ "ghost" false =
      ⟨HStatus.notFound,
       ⟨["b/x"], [("x", ⟨"x", "b/x", "a.png", [], "1-x", 3, 1, 1⟩)]⟩,
       [StoreEvent.metaGet "ghost"], []⟩ :=
  claim7_delete_missing
    ⟨["b/x"], [("x", ⟨"x", "b/x", "a.png", [], "1-x", 3, 1, 1⟩)]⟩ "ghost" false (by decide)

/-- C5: in the response projection, thumbUrl equals the resource base
concatenated with the record's path plus the "_small" suffix exactly
when the lower-cased extension of the record's name is a recognized
image extension, and is empty otherwise; it is non-empty iff the
extension is recognized. -/
theorem claim5_thumb_url (cfg : Config) (r : FirestoreFileMeta) :
    ((generateFileMeta cfg r).thumbURL =
      if imageTypes.contains (goToLower (goExt r.name)) then
        toResourceURL cfg (toThumbnailPath r.path)
      else "") ∧
    ((generateFileMeta cfg r).thumbURL ≠ "" ↔
      imageTypes.contains (goToLower (goExt r.name)) = true) := by
  refine ⟨rfl, ?_⟩
  by_cases h : imageTypes.contains (goToLower (goExt r.name)) = true
  · simp only [generateFileMeta, h, if_true]
    simp only [h, iff_true]
    exact append_small_ne_empty _ _
  · simp only [generateFileMeta]
    rw [if_neg (by simpa using h)]
    simpa using h

/-- C5 witness: the theorem applied to a record named "cat.PNG" (a
recognized image extension after lower-casing). -/
theorem claim5_thumb_url_witness :
    ((generateFileMeta ⟨"b/", "r/"⟩ ⟨"x", "b/x", "cat.PNG", [], "1-x", 3, 1, 1⟩).thumbURL =
      if imageTypes.contains (goToLower (goExt "cat.PNG")) then
        toResourceURL ⟨"b/", "r/"⟩ (toThumbnailPath "b/x")
      else "") ∧
    ((generateFileMeta ⟨"b/", "r/"⟩ ⟨"x", "b/x", "cat.PNG", [], "1-x", 3, 1, 1⟩).thumbURL ≠ "" ↔
      imageTypes.contains (goToLower (goExt "cat.PNG")) = true) :=
  claim5_thumb_url ⟨"b/", "r/"⟩ ⟨"x", "b/x", "cat.PNG", [], "1-x", 3, 1, 1⟩

/-- C9: an absent or empty size parameter yields the default page size
50 (and the listing call is made with limit 50), while a non-empty size
parameter that does not parse as an integer yields a client error with
no metadata-store listing call and an unchanged state. -/
theorem claim9_page_size :
    (parsePageSize "" = some 50) ∧
    (∀ (cfg : Config) (st : StoreState) (tagsQ orderNoQ : String),
      (getFileListH cfg st tagsQ orderNoQ "").status = HStatus.ok ∧
      (getFileListH cfg st tagsQ orderNoQ "").events =
        [StoreEvent.metaList (parseTags tagsQ) orderNoQ 50]) ∧
    (∀ (cfg : Config) (st : StoreState) (tagsQ orderNoQ sizeQ : String),
      sizeQ ≠ "" → goAtoi sizeQ = none →
      getFileListH cfg st tagsQ orderNoQ sizeQ =
        ⟨HStatus.badRequest, st, [], []⟩) := by
  refine ⟨rfl, fun cfg st tq oq => ⟨rfl, rfl⟩, fun cfg st tq oq sq hne hnone => ?_⟩
  have hp : parsePageSize sq = none := by
    rw [parsePageSize, if_neg hne, hnone]
  simp [getFileListH, hp]

/-- C9 witness: the unparsable size parameter "abc". -/
theorem claim9_page_size_witness :
    getFileListH ⟨"b/", "r/"⟩ ⟨[], []⟩ "" "" "abc" =
      ⟨HStatus.badRequest, ⟨[], []⟩, [], []⟩ :=
  claim9_page_size.2.2 ⟨"b/", "r/"⟩ ⟨[], []⟩ "" "" "abc" (by decide) (by decide)

/-- C10: every size parameter that parses as an integer — zero and
negative values included — is accepted without a client error and is
forwarded unchanged as the limit of the metadata-store listing call. -/
theorem claim10_size_forwarded (cfg : Config) (st : StoreState)
    (tagsQ orderNoQ sizeQ : String) (n : Int) (h : goAtoi sizeQ = some n) :
    (getFileListH cfg st tagsQ orderNoQ sizeQ).status = HStatus.ok ∧
    (getFileListH cfg st tagsQ orderNoQ sizeQ).state = st ∧
    (getFileListH cfg st tagsQ orderNoQ sizeQ).events =
      [StoreEvent.metaList (parseTags tagsQ) orderNoQ n] := by
  have hne : sizeQ ≠ "" := by
    intro he
    rw [he] at h
    exact Option.noConfusion (h.symm.trans (rfl : goAtoi "" = none)).symm
  have hp : parsePageSize sizeQ = some n := by
    rw [parsePageSize, if_neg hne, h]
  refine ⟨?_, ?_, ?_⟩ <;> simp [getFileListH, hp]

/-- C10 witness: the negative size parameter "-7" is forwarded as
limit -7. -/
theorem claim10_size_forwarded_witness :
    (getFileListH ⟨"b/", "r/"⟩ ⟨[], []⟩ "" "" "-7").status = HStatus.ok ∧
    (getFileListH ⟨"b/", "r/"⟩ ⟨[], []⟩ "" "" "-7").state = ⟨[], []⟩ ∧
    (getFileListH ⟨"b/", "r/"⟩ ⟨[], []⟩ "" "" "-7").events =
      [StoreEvent.metaList (parseTags "") "" (-7)] :=
  claim10_size_forwarded ⟨"b/", "r/"⟩ ⟨[], []⟩ "" "" "-7" (-7) (by decide)

/-- C1: evaluation of the upload handler at the two transcoding-failure
inputs.  A file whose decode fails aborts with an error before any
metadata record is created, as the claim states; but a file whose
decode succeeds and whose thumbnail encode fails (the transcoder's
`return 0, nil` after testing `err != nil`) is NOT aborted: the batch
reports created and a metadata record for that file exists. -/
theorem claim1_transcode_failure_eval :
    ((postFilesH ⟨"b/", "r/"⟩ ⟨[], []⟩ [⟨"x.png", 5, true, false, true⟩]
        "t" ["u1"] 9).status = HStatus.badRequest ∧
      List.lookup "u1" (postFilesH ⟨"b/", "r/"⟩ ⟨[], []⟩
        [⟨"x.png", 5, true, false, true⟩] "t" ["u1"] 9).state.metas = none) ∧
    ((postFilesH ⟨"b/", "r/"⟩ ⟨[], []⟩ [⟨"x.png", 5, true, true, false⟩]
        "t" ["u2"] 9).status = HStatus.created ∧
      (List.lookup "u2" (postFilesH ⟨"b/", "r/"⟩ ⟨[], []⟩
        [⟨"x.png", 5, true, true, false⟩] "t" ["u2"] 9).state.metas).isSome = true) := by
  refine ⟨⟨?_, ?_⟩, ?_, ?_⟩ <;> decide

/-- C8: evaluation of the update handler at a form lacking the tags
field (form.Value has no entry at the key, so the values list is
empty).  The handler crashes — the indexing `form.Value["tags"][0]`
panics, surfaced as an internal failure, not a client error — while
performing no blob-store call and no metadata merge. -/
theorem claim8_missing_tags_eval :
    updateFileH ⟨"b/", "r/"⟩ ⟨["b/x"], [("x", ⟨"x", "b/x", "a.png", [], "1-x", 3, 1, 1⟩)]⟩
      "x" ⟨[], [⟨"y.png", 3, true, true, true⟩]⟩ 9 "n2" false =
    ⟨HStatus.serverCrash,
     ⟨["b/x"], [("x", ⟨"x", "b/x", "a.png", [], "1-x", 3, 1, 1⟩)]⟩,
     [StoreEvent.metaGet "x"], []⟩ := by
  decide


/-! ### C6: tag normalization -/

theorem charToNat_ofNat (n : Nat) (h : n.isValidChar) :
    (Char.ofNat n).toNat = n := by
  rw [Char.ofNat, dif_pos h]; rfl

theorem goIsSpace_toLower (c : Char) :
    goIsSpace (Char.toLower c) = goIsSpace c := by
  by_cases hc : 65 ≤ c.toNat ∧ c.toNat ≤ 90
  · have ht : Char.toLower c = Char.ofNat (c.toNat + 32) := by
      rw [Char.toLower, if_pos ⟨hc.1, hc.2⟩]
    have h1 : (Char.ofNat (c.toNat + 32)).toNat = c.toNat + 32 :=
      charToNat_ofNat _ (Or.inl (by omega))
    have hA : goIsSpace (Char.ofNat (c.toNat + 32)) = false := by
      simp [goIsSpace, h1]; omega
    have hB : goIsSpace c = false := by
      simp [goIsSpace]; omega
    rw [ht, hA, hB]
  · have ht : Char.toLower c = c := by
      rw [Char.toLower, if_neg (fun hp => hc ⟨hp.1, hp.2⟩)]
    rw [ht]

theorem fieldsAux_map_toLower (l : List Char) : ∀ cur : List Char,
    fieldsAux (l.map Char.toLower) (cur.map Char.toLower) =
      (fieldsAux l cur).map (List.map Char.toLower) := by
  induction l with
  | nil =>
    intro cur
    cases cur <;> simp [fieldsAux]
  | cons c cs ih =>
    intro cur
    simp only [List.map_cons, fieldsAux, goIsSpace_toLower]
    cases hsp : goIsSpace c
    · simp only [Bool.false_eq_true, if_false]
      exact ih (c :: cur)
    · simp only [if_true]
      cases cur with
      | nil => simpa using ih []
      | cons d ds =>
        simp only [List.map_cons, List.isEmpty_cons, Bool.false_eq_true,
          if_false]
        rw [show ((Char.toLower d :: ds.map Char.toLower) : List Char) =
          (d :: ds).map Char.toLower from rfl]
        have ih0 := ih []
        simp only [List.map_nil] at ih0
        simp [List.map_reverse, ih0]

theorem fieldsAux_all_space (l : List Char)
    (h : ∀ c ∈ l, goIsSpace c = true) : fieldsAux l [] = [] := by
  induction l with
  | nil => rfl
  | cons c cs ih =>
    have hc := h c (by simp)
    simp only [fieldsAux, hc, if_true, List.isEmpty_nil]
    exact ih (fun d hd => h d (by simp [hd]))

/-- C6: tag normalization returns the whitespace-separated tokens of
the input with every token lower-cased and empty tokens dropped,
preserving duplicates and order of occurrence; the empty input and any
all-whitespace input yield the empty sequence. -/
theorem claim6_tag_normalization :
    (∀ s : String, parseTags s = (goFields s).map goToLower) ∧
    (∀ s : String, (∀ c ∈ s.data, goIsSpace c = true) → parseTags s = []) ∧
    parseTags "" = [] := by
  refine ⟨?_, ?_, rfl⟩
  · intro s
    by_cases hs : s = ""
    · subst hs; rfl
    · rw [parseTags, if_neg hs]
      show goFields (goToLower s) = (goFields s).map goToLower
      unfold goFields goToLower
      rw [show ((s.data.map Char.toLower).asString).data =
        s.data.map Char.toLower from rfl]
      have hcomm := fieldsAux_map_toLower s.data []
      simp only [List.map_nil] at hcomm
      rw [hcomm, List.map_map, List.map_map]
      rfl
  · intro s hsp
    by_cases hs : s = ""
    · subst hs; rfl
    · rw [parseTags, if_neg hs]
      unfold goFields goToLower
      rw [show ((s.data.map Char.toLower).asString).data =
        s.data.map Char.toLower from rfl]
      rw [fieldsAux_all_space]
      · rfl
      · intro c hc
        obtain ⟨d, hd, rfl⟩ := List.mem_map.mp hc
        rw [goIsSpace_toLower]
        exact hsp d hd

/-- C6 witness: the theorem applied to an all-whitespace input. -/
theorem claim6_tag_normalization_witness :
    parseTags "  " = [] :=
  claim6_tag_normalization.2.1 "  " (by decide)

/-! ### C4: orderNo form and ordering -/

theorem decDigits_of_lt (n : Nat) (h : n < 10) :
    decDigits n = [Nat.digitChar n] := by
  rw [decDigits, dif_pos h]

theorem decDigits_of_ge (n : Nat) (h : ¬ n < 10) :
    decDigits n = decDigits (n / 10) ++ [Nat.digitChar (n % 10)] := by
  rw [decDigits]
  exact dif_neg h

theorem decDigits_length_pos (n : Nat) : 0 < (decDigits n).length := by
  by_cases h : n < 10
  · rw [decDigits_of_lt n h]; simp
  · rw [decDigits_of_ge n h]; simp

theorem toDigitsCore_append (b : Nat) : ∀ (f n : Nat) (ds : List Char),
    Nat.toDigitsCore b f n ds = Nat.toDigitsCore b f n [] ++ ds := by
  intro f
  induction f with
  | zero => intro n ds; rfl
  | succ f ih =>
    intro n ds
    simp only [Nat.toDigitsCore]
    by_cases h : n / b = 0
    · simp [h]
    · simp only [h, if_false]
      rw [ih (n / b) (Nat.digitChar (n % b) :: ds),
        ih (n / b) [Nat.digitChar (n % b)], List.append_assoc]
      rfl

theorem toDigitsCore_eq_decDigits : ∀ (f n : Nat), n < f →
    Nat.toDigitsCore 10 f n [] = decDigits n := by
  intro f
  induction f with
  | zero => intro n h; omega
  | succ f ih =>
    intro n h
    simp only [Nat.toDigitsCore]
    by_cases h10 : n < 10
    · rw [if_pos (Nat.div_eq_of_lt h10), decDigits_of_lt n h10,
        Nat.mod_eq_of_lt h10]
    · have hdiv : n / 10 ≠ 0 := by
        have : 1 ≤ n / 10 := (Nat.one_le_div_iff (by omega)).mpr (by omega)
        omega
      rw [if_neg hdiv, toDigitsCore_append 10 f (n / 10) [Nat.digitChar (n % 10)]]
      have hq : n / 10 < f := by
        have h1 : n / 10 < n := Nat.div_lt_self (by omega) (by omega)
        omega
      rw [ih (n / 10) hq, ← decDigits_of_ge n h10]

theorem repr_data_eq_decDigits (n : Nat) : (Nat.repr n).data = decDigits n := by
  show (Nat.toDigits 10 n).asString.data = decDigits n
  rw [Nat.toDigits]
  show Nat.toDigitsCore 10 (n + 1) n [] = decDigits n
  exact toDigitsCore_eq_decDigits (n + 1) n (Nat.lt_succ_self n)

theorem digitChar_lt (a b : Nat) (hab : a < b) (hb : b < 10) :
    Nat.digitChar a < Nat.digitChar b := by
  interval_cases b <;> interval_cases a <;> decide

theorem string_lt_iff_data_lt (s1 s2 : String) :
    s1 < s2 ↔ List.lt s1.data s2.data := by
  rw [String.lt_iff_toList_lt]
  exact Iff.symm (List.lt_iff_lex_lt s1.data s2.data)

theorem listLt_append_of_lt : ∀ {l1 l2 : List Char}, List.lt l1 l2 →
    l1.length = l2.length → ∀ (r1 r2 : List Char),
    List.lt (l1 ++ r1) (l2 ++ r2) := by
  intro l1 l2 h
  induction h with
  | nil b bs => intro hlen; simp at hlen
  | head as bs hab => intro _ r1 r2; exact List.lt.head _ _ hab
  | tail h1 h2 h3 ih =>
    intro hlen r1 r2
    exact List.lt.tail h1 h2 (ih (by simpa using hlen) r1 r2)

theorem listLt_append_last (l : List Char) (a b : Char) (hab : a < b) :
    List.lt (l ++ [a]) (l ++ [b]) := by
  induction l with
  | nil => exact List.lt.head _ _ hab
  | cons c cs ih => exact List.lt.tail (Char.lt_irrefl c) (Char.lt_irrefl c) ih

theorem listLt_append_left_iff (l r1 r2 : List Char) :
    List.lt (l ++ r1) (l ++ r2) ↔ List.lt r1 r2 := by
  induction l with
  | nil => exact Iff.rfl
  | cons c cs ih =>
    constructor
    · intro h
      cases h with
      | head _ _ hcc => exact absurd hcc (Char.lt_irrefl c)
      | tail _ _ h3 => exact ih.mp h3
    · intro h
      exact List.lt.tail (Char.lt_irrefl c) (Char.lt_irrefl c) (ih.mpr h)

theorem decDigits_lt (n2 : Nat) : ∀ n1 : Nat, n1 < n2 →
    (decDigits n1).length = (decDigits n2).length →
    List.lt (decDigits n1) (decDigits n2) := by
  induction n2 using Nat.strong_induction_on with
  | _ n2 ih =>
    intro n1 hlt hlen
    by_cases h2 : n2 < 10
    · have h1 : n1 < 10 := lt_trans hlt h2
      rw [decDigits_of_lt _ h1, decDigits_of_lt _ h2]
      exact List.lt.head _ _ (digitChar_lt _ _ hlt h2)
    · by_cases h1 : n1 < 10
      · exfalso
        rw [decDigits_of_lt _ h1, decDigits_of_ge _ h2] at hlen
        have hpos := decDigits_length_pos (n2 / 10)
        rw [List.length_append] at hlen
        simp only [List.length_cons, List.length_nil] at hlen
        omega
      · rw [decDigits_of_ge _ h1, decDigits_of_ge _ h2]
        have hq : n1 / 10 ≤ n2 / 10 := Nat.div_le_div_right (le_of_lt hlt)
        have hlen2 : (decDigits (n1 / 10)).length = (decDigits (n2 / 10)).length := by
          rw [decDigits_of_ge _ h1, decDigits_of_ge _ h2] at hlen
          rw [List.length_append, List.length_append] at hlen
          simp only [List.length_cons, List.length_nil] at hlen
          omega
        rcases lt_or_eq_of_le hq with hq1 | hq2
        · have hstep := ih (n2 / 10) (Nat.div_lt_self (by omega) (by omega))
            (n1 / 10) hq1 hlen2
          exact listLt_append_of_lt hstep hlen2 _ _
        · rw [hq2]
          have hmod : n1 % 10 < n2 % 10 := by
            have e1 := Nat.div_add_mod n1 10
            have e2 := Nat.div_add_mod n2 10
            omega
          exact listLt_append_last _ _ _
            (digitChar_lt _ _ hmod (Nat.mod_lt _ (by omega)))

theorem getOrderNo_data (t : Nat) (id : String) :
    (getOrderNo t id).data = (decDigits t ++ [Char.ofNat 45]) ++ id.data := by
  show (Nat.repr t ++ "-" ++ id).data = _
  rw [String.data_append, String.data_append, repr_data_eq_decDigits]

/-- C4 (amended): every generated sort key is the decimal millisecond
timestamp, a dash, and the id; for two mutations at strictly increasing
clock readings whose decimal renderings have equal length (true for all
millisecond timestamps from 2001 through 2286), the later orderNo is
strictly greater in string order; at equal timestamps the comparison of
the orderNo strings is exactly the comparison of the ids. -/
theorem claim4_orderNo_ordering :
    (∀ (t : Nat) (id : String), getOrderNo t id = Nat.repr t ++ "-" ++ id) ∧
    (∀ (t1 t2 : Nat) (id1 id2 : String), t1 < t2 →
      (Nat.repr t1).length = (Nat.repr t2).length →
      getOrderNo t1 id1 < getOrderNo t2 id2) ∧
    (∀ (t : Nat) (id1 id2 : String),
      (getOrderNo t id1 < getOrderNo t id2 ↔ id1 < id2)) := by
  refine ⟨fun _ _ => rfl, ?_, ?_⟩
  · intro t1 t2 id1 id2 hlt hlen
    rw [string_lt_iff_data_lt, getOrderNo_data, getOrderNo_data]
    have hlen2 : (decDigits t1).length = (decDigits t2).length := by
      rw [← repr_data_eq_decDigits, ← repr_data_eq_decDigits]
      exact hlen
    refine listLt_append_of_lt ?_ (by simp [hlen2]) _ _
    exact listLt_append_of_lt (decDigits_lt t2 t1 hlt hlen2) hlen2 _ _
  · intro t id1 id2
    rw [string_lt_iff_data_lt, string_lt_iff_data_lt,
      getOrderNo_data, getOrderNo_data]
    exact listLt_append_left_iff _ _ _

/-- C4 witness: two clock readings of equal decimal length, and a tie
broken by the id comparison. -/
theorem claim4_orderNo_ordering_witness :
    getOrderNo 1700000000000 "a" < getOrderNo 1700000000001 "b" ∧
    (getOrderNo 5 "a" < getOrderNo 5 "b" ↔ ("a" : String) < "b") :=
  ⟨claim4_orderNo_ordering.2.1 1700000000000 1700000000001 "a" "b"
      (by omega) (by decide),
   claim4_orderNo_ordering.2.2 5 "a" "b"⟩

/-- C4 counterexample: the claim as stated fails when the decimal
renderings of the two timestamps differ in length — the clock advances
from 9 to 10 yet the later orderNo is strictly SMALLER in string
order. -/
theorem claim4_orderNo_counterexample :
    (9 : Nat) < 10 ∧ ¬ getOrderNo 9 "a" < getOrderNo 10 "a" ∧
    getOrderNo 10 "a" < getOrderNo 9 "a" := by
  refine ⟨by omega, ?_, ?_⟩
  · rw [string_lt_iff_data_lt]
    decide
  · rw [string_lt_iff_data_lt]
    decide

end LDS
